import Mathlib

/-!
# Prime-number server: worker, race coordinator and safe-prime generator

A shallow embedding of `server/server.go` and of the response loop of
`client/client.go`.

* Go's `int` is a 64-bit two's-complement integer; it is an `Int` here and
  every `int` operation of the source is followed by `wrap64`.
* `*big.Int` values are unbounded; the values drawn from the random source
  are non-negative and are `Nat` here.
* The random source (`crypto/rand`) is an oracle, `RandSource`; what the
  library promises about it is the predicate `RandSource.Sound`.
* The retry loop of `generateSafePrime` is run with a bound on the number of
  iterations; `none` says the loop is still running after that many.
* The goroutines of `generateSafePrimeConcurrent` are a transition system on
  `RaceState`, driven by a schedule (a list of `Event`).
-/

namespace PrimeServer

/-! ## Go values -/

/-- Two's-complement wrap of a mathematical integer into the range of Go's
64-bit `int`. -/
def wrap64 (x : Int) : Int :=
  (x + 9223372036854775808) % 18446744073709551616 - 9223372036854775808

/-- The two errors `crypto/rand` reports: the reader failed, or `rand.Prime`
was asked for fewer than two bits. -/
inductive RandError where
  | reader
  | primeSize
  deriving DecidableEq, Repr

/-- What a Go call of type `(T, error)` does: it returns a value, returns an
error, or panics. -/
inductive GoResult (α : Type) where
  | ok (v : α)
  | err (e : RandError)
  | panic
  deriving DecidableEq, Repr

/-! ## The random source -/

/-- The random source as an oracle. `intDraw i max` is what the reader gives
the `rand.Int` call of iteration `i` (asked for a value below `max`), and
`primeDraw i bits` what it gives the `rand.Prime` call of iteration `i`;
`none` is a failed read. -/
structure RandSource where
  intDraw : Nat → Int → Option Nat
  primeDraw : Nat → Int → Option Nat

/-- The library's contract: `rand.Int` returns a value in `[0, max)` and
`rand.Prime` a prime of exactly `bits` bits. -/
def RandSource.Sound (src : RandSource) : Prop :=
  (∀ i max r, src.intDraw i max = some r → (r : Int) < max) ∧
  (∀ i bits q, src.primeDraw i bits = some q → Nat.Prime q ∧ (Nat.size q : Int) = bits)

/-- Library call `rand.Int(rand.Reader, max)`: panics when `max <= 0`, returns the
reader's error when the read fails. -/
def randInt (src : RandSource) (i : Nat) (max : Int) : GoResult Nat :=
  if max ≤ 0 then GoResult.panic
  else match src.intDraw i max with
    | none => GoResult.err RandError.reader
    | some r => GoResult.ok r

/-- Largest slice `make` allocates on a 64-bit platform (the runtime's `maxAlloc`, 2^48
bytes); a longer one is a panic, `makeslice: len out of range`. -/
def maxAlloc : Int := 281474976710656

/-- Library call `rand.Prime(rand.Reader, bits)`: an error when `bits < 2`; then it
allocates `(bits+7)/8` bytes, which panics when that is more than `maxAlloc`; then
it reads, and returns the reader's error when the read fails. -/
def randPrime (src : RandSource) (i : Nat) (bits : Int) : GoResult Nat :=
  if bits < 2 then GoResult.err RandError.primeSize
  else if maxAlloc < (bits + 7) / 8 then GoResult.panic
  else match src.primeDraw i bits with
    | none => GoResult.err RandError.reader
    | some q => GoResult.ok q

/-- Library call `(*big.Int).ProbablyPrime`, taken as a primality test. -/
def ProbablyPrime (x : Nat) : Bool := decide (Nat.Prime x)

/-! ## Candidate generation (`server.go`, lines 105-162) -/

/-- The source's `generatePrimeNumber`, called in iteration `i` of the retry loop. -/
def generatePrimeNumber (src : RandSource) (i : Nat) (minBits maxBits : Int) : GoResult Nat :=
  match randInt src i (wrap64 (wrap64 (maxBits - minBits) + 1)) with
  | GoResult.panic => GoResult.panic
  | GoResult.err e => GoResult.err e
  | GoResult.ok r =>
    let bitSize : Int := (r : Int) + minBits
    randPrime src i (wrap64 bitSize)

/-- The source's table `smallPrimes`. -/
def smallPrimes : List Int :=
  [2, 3, 5, 7, 11, 13, 17, 19, 23, 29, 31, 37, 41, 43, 47,
   53, 59, 61, 67, 71, 73, 79, 83, 89, 97]

/-- The source's `isDivisibleByAnySmallPrime`; `big.Int.Mod` is the Euclidean
modulus, as `%` on `Int` is. -/
def isDivisibleByAnySmallPrime (num : Int) : Bool :=
  smallPrimes.any (fun prime => num % prime == 0)

/-- The source's `(bits + 1) / 2`: Go's `/` truncates toward zero. -/
def halfBits (bits : Int) : Int := Int.tdiv (wrap64 (bits + 1)) 2

/-- The retry loop of `generateSafePrime`, from iteration `i`, for at most
`fuel` iterations. -/
def safePrimeLoop (src : RandSource) (halfMinBits halfMaxBits : Int) :
    Nat → Nat → Option (GoResult Nat)
  | 0, _ => none
  | fuel + 1, i =>
    match generatePrimeNumber src i halfMinBits halfMaxBits with
    | GoResult.panic => some GoResult.panic
    | GoResult.err e => some (GoResult.err e)
    | GoResult.ok halfPrime =>
      if isDivisibleByAnySmallPrime (halfPrime : Int) then
        safePrimeLoop src halfMinBits halfMaxBits fuel (i + 1)
      else
        let prime := (halfPrime <<< 1) + 1
        if ProbablyPrime prime then some (GoResult.ok prime)
        else safePrimeLoop src halfMinBits halfMaxBits fuel (i + 1)

/-- The source's `generateSafePrime`, its loop bounded by `fuel` iterations. -/
def generateSafePrime (fuel : Nat) (src : RandSource) (minBits maxBits : Int) :
    Option (GoResult Nat) :=
  safePrimeLoop src (halfBits minBits) (halfBits maxBits) fuel 0

/-! ## The race (`server.go`, lines 164-194) -/

/-- A goroutine launched by `generateSafePrimeConcurrent`: still inside its call of
`generateSafePrime`, which is going to end as `a` (`none`: it never returns), or
finished, its deferred `wg.Done()` run. -/
inductive Goroutine where
  | running (a : Option (GoResult Nat))
  | done
  deriving DecidableEq, Repr

/-- The calling goroutine: still before the `range primeChan` receive, blocked
in that receive, or returned with a prime (`some`) or with `nil` (`none`). -/
inductive MainState where
  | launching
  | receiving
  | returned (r : Option Nat)
  deriving DecidableEq, Repr

/-- State of one call of `generateSafePrimeConcurrent`: the caller, the launched
goroutines, whether `primeChan` is closed, whether a panic has ended the program. -/
structure RaceState where
  main : MainState
  gs : List Goroutine
  closed : Bool
  crashed : Bool
  deriving DecidableEq, Repr

/-- What the scheduler can let happen next: the caller reaches the receive,
goroutine `i` comes back from `generateSafePrime` and runs to its end, or the
waiting goroutine gets past `wg.Wait()` and closes the channel. -/
inductive Event where
  | recv
  | finish (i : Nat)
  | close
  deriving DecidableEq, Repr

/-- State right after `wg.Add`: nobody has run yet. -/
def launch (attempts : List (Option (GoResult Nat))) : RaceState :=
  { main := MainState.launching, gs := attempts.map Goroutine.running,
    closed := false, crashed := false }

/-- The non-blocking send `select { case primeChan <- prime: default: }` on the
unbuffered channel: it goes through only when the caller is blocked in the
receive, and then the caller returns that prime. -/
def trySend (m : MainState) (prime : Nat) : MainState :=
  match m with
  | MainState.receiving => MainState.returned (some prime)
  | MainState.launching => MainState.launching
  | MainState.returned r => MainState.returned r

/-- What `close(primeChan)` does to the caller: a caller blocked in the receive
leaves the `range` loop and returns `nil, nil`. -/
def onClose (m : MainState) : MainState :=
  match m with
  | MainState.receiving => MainState.returned none
  | MainState.launching => MainState.launching
  | MainState.returned r => MainState.returned r

/-- One scheduling step; `none` when the event cannot happen in this state. A goroutine
whose attempt panics ends the program (nothing recovers the panic), after which
nothing happens any more. The log lines and `fmt.Println` are left out. -/
def step (s : RaceState) (e : Event) : Option RaceState :=
  if s.crashed then none
  else
    match e with
    | Event.recv =>
      match s.main with
      | MainState.launching =>
        some { s with main := if s.closed then MainState.returned none else MainState.receiving }
      | _ => none
    | Event.finish i =>
      match s.gs.get? i with
      | some (Goroutine.running (some (GoResult.ok prime))) =>
        some { s with gs := s.gs.set i Goroutine.done, main := trySend s.main prime }
      | some (Goroutine.running (some (GoResult.err _))) =>
        some { s with gs := s.gs.set i Goroutine.done }
      | some (Goroutine.running (some GoResult.panic)) =>
        some { s with crashed := true }
      | _ => none
    | Event.close =>
      if s.closed = false ∧ s.gs.all (fun g => g == Goroutine.done) = true then
        some { s with closed := true, main := onClose s.main }
      else none

/-- Runs a schedule; an event that cannot happen is skipped. -/
def run (s : RaceState) (sched : List Event) : RaceState :=
  sched.foldl (fun st e => (step st e).getD st) s

/-- Nothing can happen any more: the schedule has been run to its end. -/
def Quiescent (s : RaceState) : Prop := ∀ e, step s e = none

/-- Number of events that can still happen; every step lowers it. -/
def pending (s : RaceState) : Nat :=
  (if s.crashed then 0 else 1) + (if s.closed then 0 else 1) +
  (match s.main with
    | MainState.launching => 1
    | _ => 0) +
  (s.gs.filter (fun g => g != Goroutine.done)).length

/-- What a call has done so far: returned, panicked, or neither yet. -/
inductive Outcome (α : Type) where
  | returned (v : α)
  | panicked
  | blocked
  deriving DecidableEq, Repr

/-- What the caller of the race sees in state `s`. -/
def raceOutcome (s : RaceState) : Outcome (Option Nat) :=
  match s.main with
  | MainState.returned r => Outcome.returned r
  | _ => if s.crashed then Outcome.panicked else Outcome.blocked

/-- State of the race of `generateSafePrimeConcurrent` after the schedule `sched`;
goroutine `i` reads the source `srcs i`. -/
def raceState (fuel : Nat) (srcs : Nat → RandSource) (sched : List Event)
    (minBits maxBits : Int) (numGoroutines : Int) : RaceState :=
  run (launch ((List.range numGoroutines.toNat).map
    (fun i => generateSafePrime fuel (srcs i) minBits maxBits))) sched

/-- The source's `generateSafePrimeConcurrent`; `wg.Add` panics on a negative
count. The returned error is always `nil` and is left out. -/
def generateSafePrimeConcurrent (fuel : Nat) (srcs : Nat → RandSource) (sched : List Event)
    (minBits maxBits : Int) (numGoroutines : Int) : Outcome (Option Nat) :=
  if numGoroutines < 0 then Outcome.panicked
  else raceOutcome (raceState fuel srcs sched minBits maxBits numGoroutines)

/-! ## The worker (`server.go`, lines 84-103) -/

/-- The two errors of `strconv.Atoi`. -/
inductive NumError where
  | errSyntax
  | errRange
  deriving DecidableEq, Repr

/-- Splits an optional leading sign off; `true` for a minus sign. -/
def splitSign : List Char → Bool × List Char
  | '-' :: ds => (true, ds)
  | '+' :: ds => (false, ds)
  | ds => (false, ds)

/-- The digit loop of the fast path of `strconv.Atoi`: `none` at a character that
is no digit. -/
def fastDigits (n : Nat) : List Char → Option Nat
  | [] => some n
  | c :: cs => if c.isDigit then fastDigits (n * 10 + (c.toNat - 48)) cs else none

/-- The fast path of `strconv.Atoi`, taken for payloads of 1 to 18 bytes. -/
def atoiFast (s : List Char) : Int × Option NumError :=
  let signed := splitSign s
  if signed.2.isEmpty then (0, some NumError.errSyntax)
  else
    match fastDigits 0 signed.2 with
    | none => (0, some NumError.errSyntax)
    | some n => (if signed.1 then -(n : Int) else (n : Int), none)

/-- The digit loop of `strconv.ParseUint` (base 10, 64 bits), character by
character: a syntax error at a character that is no digit, and a range error,
with the largest `uint64`, as soon as the value overflows, without looking at
the characters that follow. -/
def parseUintLoop (n : Nat) : List Char → Nat × Option NumError
  | [] => (n, none)
  | c :: cs =>
    if c.isDigit then
      if 1844674407370955162 ≤ n then (18446744073709551615, some NumError.errRange)
      else if 18446744073709551615 < n * 10 + (c.toNat - 48) then
        (18446744073709551615, some NumError.errRange)
      else parseUintLoop (n * 10 + (c.toNat - 48)) cs
    else (0, some NumError.errSyntax)

/-- Library call `strconv.ParseUint(s, 10, 0)`. -/
def ParseUint (s : List Char) : Nat × Option NumError :=
  if s.isEmpty then (0, some NumError.errSyntax) else parseUintLoop 0 s

/-- Library call `strconv.ParseInt(s, 10, 0)`: a syntax error gives 0, a value out
of range the nearest `int` with a range error. -/
def ParseInt (s : List Char) : Int × Option NumError :=
  if s.isEmpty then (0, some NumError.errSyntax)
  else
    let signed := splitSign s
    match ParseUint signed.2 with
    | (_, some NumError.errSyntax) => (0, some NumError.errSyntax)
    | (un, _) =>
      if signed.1 = false ∧ 9223372036854775808 ≤ un then
        (9223372036854775807, some NumError.errRange)
      else if signed.1 = true ∧ 9223372036854775808 < un then
        (-9223372036854775808, some NumError.errRange)
      else (if signed.1 then -(un : Int) else (un : Int), none)

/-- Library call `strconv.Atoi`: the fast path for a payload of 1 to 18 bytes,
`ParseInt` for any other. -/
def Atoi (s : String) : Int × Option NumError :=
  if 0 < s.utf8ByteSize ∧ s.utf8ByteSize < 19 then atoiFast s.toList
  else ParseInt s.toList

/-- A decimal integer, as the wire protocol means it: an optional sign and then
decimal digits, at least one, and nothing else. -/
def isDecimalInteger (s : String) : Bool :=
  !(splitSign s.toList).2.isEmpty && (splitSign s.toList).2.all Char.isDigit

/-- The source's `processWork` on the payload `data`. -/
def processWork (fuel : Nat) (srcs : Nat → RandSource) (sched : List Event)
    (data : String) : Outcome String :=
  let size := (Atoi data).1
  match generateSafePrimeConcurrent fuel srcs sched size (wrap64 (size * 2)) 2 with
  | Outcome.returned none => Outcome.returned "Size to small!"
  | Outcome.returned (some prime) =>
    Outcome.returned ("Prime with size " ++ toString size ++ ": " ++ toString prime)
  | Outcome.panicked => Outcome.panicked
  | Outcome.blocked => Outcome.blocked

/-- The body of the loop of the source's `worker` for one work item: the lines
written to the client's connection (each is followed by a newline). -/
def worker (fuel : Nat) (srcs : Nat → RandSource) (sched : List Event)
    (id : Int) (data : String) : List String :=
  let msg := "Your task is being processed by worker " ++ toString id
  let status := "Status: " ++ msg
  match processWork fuel srcs sched data with
  | Outcome.returned result => [status, "Result: " ++ result]
  | _ => [status]

/-! ## The client's response loop (`client.go`, lines 54-67) -/

/-- Whether `sub` starts the list `cs`. -/
def startsWith : List Char → List Char → Bool
  | _, [] => true
  | [], _ :: _ => false
  | c :: cs, d :: ds => c == d && startsWith cs ds

/-- Whether `sub` occurs in `cs`. -/
def containsChars : List Char → List Char → Bool
  | [], sub => startsWith [] sub
  | c :: cs, sub => startsWith (c :: cs) sub || containsChars cs sub

/-- Library call `strings.Contains`. -/
def Contains (s substr : String) : Bool := containsChars s.toList substr.toList

/-- The source's `processServerResponse` on the lines the connection delivers: the
lines it prints, and whether it left its loop at a line that contains `Result`.
The `bufio.Scanner` gives up (`token too long`) at a line of 65536 bytes or more,
and has nothing to give when the lines run out. -/
def processServerResponse : List String → List String × Bool
  | [] => ([], false)
  | text :: rest =>
    if 65536 ≤ text.utf8ByteSize then ([], false)
    else if Contains text "Result" then ([text], true)
    else ((processServerResponse rest).1.cons text, (processServerResponse rest).2)

/-! ## Two concrete random sources -/

/-- A sound source: `rand.Int` yields 3 when it may and 0 otherwise, `rand.Prime`
yields 113 for seven bits and 3 for two bits, and the read fails for other sizes. -/
def demoSource : RandSource where
  intDraw := fun _ max => if 3 < max then some 3 else if 0 < max then some 0 else none
  primeDraw := fun _ bits => if bits = 7 then some 113 else if bits = 2 then some 3 else none

/-- A source whose every read fails. -/
def brokenSource : RandSource where
  intDraw := fun _ _ => none
  primeDraw := fun _ _ => none

/-! ## Invariant of the race, and states up to the kind of error -/

/-- Invariant of every state reached from `launch attempts`. -/
structure Inv (attempts : List (Option (GoResult Nat))) (s : RaceState) : Prop where
  slots : ∀ i : Nat, s.gs[i]? = some Goroutine.done ∨ s.gs[i]? = (attempts[i]?).map Goroutine.running
  finished : ∀ i : Nat, s.gs[i]? = some Goroutine.done →
    (∃ p, attempts[i]? = some (some (GoResult.ok p))) ∨ (∃ e, attempts[i]? = some (some (GoResult.err e)))
  recvOpen : s.main = MainState.receiving → s.closed = false
  closedDone : s.closed = true → ∀ g ∈ s.gs, g = Goroutine.done
  winner : ∀ p, s.main = MainState.returned (some p) → some (GoResult.ok p) ∈ attempts
  crash : s.crashed = true → some GoResult.panic ∈ attempts
  empty : s.main = MainState.returned none → s.closed = true


/-- Forgets which error an attempt returns. -/
def forgetError : Goroutine → Goroutine
  | Goroutine.running (some (GoResult.err _)) =>
    Goroutine.running (some (GoResult.err RandError.reader))
  | g => g

/-- The state with the kind of every attempt's error forgotten. -/
def forgetErrors (s : RaceState) : RaceState :=
  { main := s.main, gs := s.gs.map forgetError, closed := s.closed, crashed := s.crashed }

/-! ## Arithmetic and the sieve -/

/-- Truncating division by two, in terms of flooring division. -/
theorem tdiv_two (x : Int) : Int.tdiv x 2 = if 0 ≤ x then x / 2 else -((-x) / 2) := by
  split
  · rename_i h
    exact Int.tdiv_eq_ediv h (by norm_num)
  · rename_i h
    have h1 : Int.tdiv x 2 = - Int.tdiv (-x) 2 := by
      rw [Int.neg_tdiv, neg_neg]
    rw [h1, Int.tdiv_eq_ediv (by omega) (by norm_num)]

/-- The half-bit bound of any `int` fits in 63 bits. -/
theorem halfBits_range (b : Int) :
    -4611686018427387904 ≤ halfBits b ∧ halfBits b < 4611686018427387904 := by
  unfold halfBits wrap64
  rw [tdiv_two]
  split <;> omega

theorem halfBits_le_one (maxBits : Int) (hint : -9223372036854775808 ≤ maxBits)
    (hmax : maxBits < 2) : halfBits maxBits ≤ 1 := by
  unfold halfBits wrap64
  rw [tdiv_two]
  split <;> omega

theorem size_eq_succ (n k : Nat) (h1 : 2 ^ k ≤ n) (h2 : n < 2 ^ (k + 1)) : Nat.size n = k + 1 :=
  le_antisymm (Nat.size_le.2 h2) (Nat.lt_size.2 h1)

/-- Every prime up to 97 is in the table. -/
theorem smallPrimes_complete (q : Nat) (hq : q.Prime) (hle : q ≤ 97) : (q : Int) ∈ smallPrimes := by
  interval_cases q <;> first | (simp [smallPrimes]; done) | (exfalso; revert hq; norm_num)

/-- Every entry of the table lies between 2 and 97. -/
theorem smallPrimes_bounds (s : Int) (hs : s ∈ smallPrimes) : ∃ k : Nat, s = (k : Int) ∧ 2 ≤ k ∧ k ≤ 97 := by
  simp only [smallPrimes, List.mem_cons, List.mem_singleton, List.not_mem_nil, or_false] at hs
  refine ⟨s.toNat, ?_, ?_, ?_⟩ <;> omega

/-- The sieve reports exactly the multiples of an entry of the table. -/
theorem isDivisible_iff (n : Int) : isDivisibleByAnySmallPrime n = true ↔ ∃ s ∈ smallPrimes, s ∣ n := by
  unfold isDivisibleByAnySmallPrime
  rw [List.any_eq_true]
  constructor
  · rintro ⟨s, hs, h⟩
    exact ⟨s, hs, Int.dvd_of_emod_eq_zero (by simpa using h)⟩
  · rintro ⟨s, hs, h⟩
    exact ⟨s, hs, by simpa using Int.emod_eq_zero_of_dvd h⟩

/-- A prime the sieve lets through is at least 101. -/
theorem prime_not_sieved (q : Nat) (hq : q.Prime) (hnd : isDivisibleByAnySmallPrime (q : Int) = false) :
    101 ≤ q := by
  by_contra hlt
  have hle : q ≤ 97 := by
    by_contra h97
    have h1 : 98 ≤ q := by omega
    have h2 : q ≤ 100 := by omega
    interval_cases q <;> revert hq <;> norm_num
  have hmem := smallPrimes_complete q hq hle
  have : isDivisibleByAnySmallPrime (q : Int) = true :=
    (isDivisible_iff _).2 ⟨(q : Int), hmem, dvd_refl _⟩
  rw [this] at hnd
  exact Bool.noConfusion hnd

/-! ## The random sources -/

theorem demoSource_sound : demoSource.Sound := by
  constructor
  · intro i max r h
    simp only [demoSource] at h
    split_ifs at h <;> simp at h <;> omega
  · intro i bits q h
    simp only [demoSource] at h
    split_ifs at h with h7 h2
    · simp at h; subst h; subst h7
      exact ⟨by norm_num, by rw [size_eq_succ 113 6 (by norm_num) (by norm_num)]; rfl⟩
    · simp at h; subst h; subst h2
      exact ⟨by norm_num, by rw [size_eq_succ 3 1 (by norm_num) (by norm_num)]; rfl⟩

theorem brokenSource_sound : brokenSource.Sound := by
  constructor <;> intro _ _ _ h <;> simp [brokenSource] at h

/-! ## The candidate generator -/

/-- A prime returned by `generatePrimeNumber` is prime and has a bit length within the bounds, at least 2. -/
theorem generatePrimeNumber_ok (src : RandSource) (hs : src.Sound) (i : Nat) (lo hi : Int)
    (hlo : -4611686018427387904 ≤ lo ∧ lo < 4611686018427387904)
    (hhi : -4611686018427387904 ≤ hi ∧ hi < 4611686018427387904)
    (q : Nat) (h : generatePrimeNumber src i lo hi = GoResult.ok q) :
    Nat.Prime q ∧ lo ≤ (Nat.size q : Int) ∧ (Nat.size q : Int) ≤ hi ∧ 2 ≤ (Nat.size q : Int) := by
  unfold generatePrimeNumber randInt at h
  by_cases hmax : wrap64 (wrap64 (hi - lo) + 1) ≤ 0
  · simp [hmax] at h
  · cases hd : src.intDraw i (wrap64 (wrap64 (hi - lo) + 1)) with
    | none => simp [hmax, hd] at h
    | some r =>
      simp only [hmax, hd, if_false] at h
      unfold randPrime at h
      by_cases hbits : wrap64 ((r : Int) + lo) < 2
      · simp [hbits] at h
      · by_cases hbig : maxAlloc < (wrap64 ((r : Int) + lo) + 7) / 8
        · simp [hbits, hbig] at h
        cases hp : src.primeDraw i (wrap64 ((r : Int) + lo)) with
        | none => simp [hbits, hbig, hp] at h
        | some q' =>
          simp only [hbits, hbig, hp, if_false, GoResult.ok.injEq] at h
          subst h
          obtain ⟨hprime, hsize⟩ := hs.2 _ _ _ hp
          have hr := hs.1 _ _ _ hd
          refine ⟨hprime, ?_⟩
          rw [hsize]
          unfold wrap64 at hr hmax hbits ⊢
          omega

/-- What the retry loop returns is `2 * q + 1` for a prime `q` the sieve let through, both prime, `q` within the bounds. -/
theorem safePrimeLoop_ok (src : RandSource) (hs : src.Sound) (lo hi : Int)
    (hlo : -4611686018427387904 ≤ lo ∧ lo < 4611686018427387904)
    (hhi : -4611686018427387904 ≤ hi ∧ hi < 4611686018427387904) :
    ∀ (fuel i p : Nat), safePrimeLoop src lo hi fuel i = some (GoResult.ok p) →
      ∃ q : Nat, p = 2 * q + 1 ∧ Nat.Prime q ∧ Nat.Prime p ∧
        isDivisibleByAnySmallPrime (q : Int) = false ∧
        lo ≤ (Nat.size q : Int) ∧ (Nat.size q : Int) ≤ hi := by
  intro fuel
  induction fuel with
  | zero => intro i p h; simp [safePrimeLoop] at h
  | succ fuel ih =>
    intro i p h
    rw [safePrimeLoop] at h
    cases hg : generatePrimeNumber src i lo hi with
    | panic => simp [hg] at h
    | err e => simp [hg] at h
    | ok q =>
      simp only [hg] at h
      obtain ⟨hq, h1, h2, _⟩ := generatePrimeNumber_ok src hs i lo hi hlo hhi q hg
      split at h
      · exact ih _ _ h
      · rename_i hdiv
        split at h
        · rename_i hpp
          simp only [Option.some.injEq, GoResult.ok.injEq] at h
          refine ⟨q, ?_, hq, ?_, by simpa using hdiv, h1, h2⟩
          · rw [← h, Nat.shiftLeft_eq]; omega
          · rw [← h]
            simpa [ProbablyPrime] using hpp
        · exact ih _ _ h

theorem generateSafePrime_ok (fuel : Nat) (src : RandSource) (hs : src.Sound) (minBits maxBits : Int)
    (p : Nat) (h : generateSafePrime fuel src minBits maxBits = some (GoResult.ok p)) :
    ∃ q : Nat, p = 2 * q + 1 ∧ Nat.Prime q ∧ Nat.Prime p ∧ 101 ≤ q ∧
      isDivisibleByAnySmallPrime (q : Int) = false ∧
      halfBits minBits ≤ (Nat.size q : Int) ∧ (Nat.size q : Int) ≤ halfBits maxBits := by
  obtain ⟨q, hp, hq, hpp, hnd, h1, h2⟩ :=
    safePrimeLoop_ok src hs _ _ (halfBits_range minBits) (halfBits_range maxBits) fuel 0 p h
  exact ⟨q, hp, hq, hpp, prime_not_sieved q hq hnd, hnd, h1, h2⟩

/-- With an upper half-bit bound of at most 6 no prime is ever returned. -/
theorem generateSafePrime_small_range (fuel : Nat) (src : RandSource) (hs : src.Sound)
    (minBits maxBits : Int) (hmax : halfBits maxBits ≤ 6) (p : Nat) :
    generateSafePrime fuel src minBits maxBits ≠ some (GoResult.ok p) := by
  intro h
  obtain ⟨q, _, _, _, h101, _, _, h2⟩ := generateSafePrime_ok fuel src hs minBits maxBits p h
  have hsz : Nat.size q ≤ 6 := by omega
  have := Nat.size_le.1 hsz
  omega

/-- With a lower bound of at least 2 the only error is the reader's. -/
theorem generatePrimeNumber_err (src : RandSource) (hs : src.Sound) (i : Nat) (lo hi : Int)
    (hlo : 2 ≤ lo ∧ lo < 4611686018427387904)
    (hhi : -4611686018427387904 ≤ hi ∧ hi < 4611686018427387904)
    (e : RandError) (h : generatePrimeNumber src i lo hi = GoResult.err e) :
    e = RandError.reader := by
  unfold generatePrimeNumber randInt at h
  by_cases hmax : wrap64 (wrap64 (hi - lo) + 1) ≤ 0
  · simp [hmax] at h
  · cases hd : src.intDraw i (wrap64 (wrap64 (hi - lo) + 1)) with
    | none =>
      simp [hmax, hd] at h
      exact h.symm
    | some r =>
      simp only [hmax, hd, if_false] at h
      unfold randPrime at h
      have hr := hs.1 _ _ _ hd
      have hbits : ¬ wrap64 ((r : Int) + lo) < 2 := by
        unfold wrap64 at hr hmax ⊢
        omega
      by_cases hbig : maxAlloc < (wrap64 ((r : Int) + lo) + 7) / 8
      · simp [hbits, hbig] at h
      cases hp : src.primeDraw i (wrap64 ((r : Int) + lo)) with
      | none =>
        simp [hbits, hbig, hp] at h
        exact h.symm
      | some q => simp [hbits, hbig, hp] at h

theorem safePrimeLoop_err (src : RandSource) (hs : src.Sound) (lo hi : Int)
    (hlo : 2 ≤ lo ∧ lo < 4611686018427387904)
    (hhi : -4611686018427387904 ≤ hi ∧ hi < 4611686018427387904) :
    ∀ (fuel i : Nat) (e : RandError), safePrimeLoop src lo hi fuel i = some (GoResult.err e) →
      e = RandError.reader := by
  intro fuel
  induction fuel with
  | zero => intro i e h; simp [safePrimeLoop] at h
  | succ fuel ih =>
    intro i e h
    rw [safePrimeLoop] at h
    cases hg : generatePrimeNumber src i lo hi with
    | panic => simp [hg] at h
    | err e' =>
      simp only [hg, Option.some.injEq, GoResult.err.injEq] at h
      subst h
      exact generatePrimeNumber_err src hs i lo hi hlo hhi _ hg
    | ok q =>
      simp only [hg] at h
      split_ifs at h
      · exact ih _ _ h
      · simp at h
      · exact ih _ _ h

/-- With an upper bound of at most 1 and a range that is not empty, `generatePrimeNumber` returns an error. -/
theorem generatePrimeNumber_degenerate (src : RandSource) (hs : src.Sound) (i : Nat) (lo hi : Int)
    (hlo : -4611686018427387904 ≤ lo) (hle : lo ≤ hi) (hhi : hi ≤ 1) :
    ∃ e, generatePrimeNumber src i lo hi = GoResult.err e := by
  unfold generatePrimeNumber randInt
  have hmax : ¬ wrap64 (wrap64 (hi - lo) + 1) ≤ 0 := by
    unfold wrap64; omega
  cases hd : src.intDraw i (wrap64 (wrap64 (hi - lo) + 1)) with
  | none => exact ⟨RandError.reader, by simp [hmax]⟩
  | some r =>
    have hr := hs.1 _ _ _ hd
    have hbits : wrap64 ((r : Int) + lo) < 2 := by
      unfold wrap64 at hr ⊢; omega
    exact ⟨RandError.primeSize, by simp [hmax, randPrime, hbits]⟩

theorem attempt_degenerate (fuel : Nat) (src : RandSource) (hs : src.Sound)
    (minBits maxBits : Int) (hhi : halfBits maxBits ≤ 1)
    (hrange : halfBits minBits ≤ halfBits maxBits) :
    ∃ e, generateSafePrime (fuel + 1) src minBits maxBits = some (GoResult.err e) := by
  obtain ⟨e, he⟩ := generatePrimeNumber_degenerate src hs 0 _ _
    (halfBits_range minBits).1 hrange hhi
  exact ⟨e, by simp [generateSafePrime, safePrimeLoop, he]⟩

theorem attempt_size_neg_two (fuel : Nat) (src : RandSource) :
    generateSafePrime (fuel + 1) src (-2) (wrap64 (-2 * 2)) = some GoResult.panic := by
  have h1 : halfBits (-2) = 0 := by decide
  have h2 : halfBits (wrap64 (-2 * 2)) = -1 := by decide
  have h3 : wrap64 (wrap64 (-1 - 0) + 1) = 0 := by decide
  unfold generateSafePrime
  rw [h1, h2, safePrimeLoop]
  unfold generatePrimeNumber randInt
  rw [h3]
  simp

/-- With half-bit bounds 2 and 3 the loop of the demo source draws the prime 3 for ever. -/
theorem demo_loop_two_three : ∀ fuel i : Nat, safePrimeLoop demoSource 2 3 fuel i = none := by
  intro fuel
  induction fuel with
  | zero => intro i; rfl
  | succ fuel ih =>
    intro i
    have hg : generatePrimeNumber demoSource i 2 3 = GoResult.ok 3 := rfl
    have hd : isDivisibleByAnySmallPrime ((3 : Nat) : Int) = true := by decide
    rw [safePrimeLoop, hg]
    simp only [hd, if_true]
    exact ih (i + 1)

theorem demo_attempt_size_three (fuel : Nat) :
    generateSafePrime fuel demoSource 3 (wrap64 (3 * 2)) = none := by
  have h1 : halfBits 3 = 2 := by decide
  have h2 : halfBits (wrap64 (3 * 2)) = 3 := by decide
  unfold generateSafePrime
  rw [h1, h2]
  exact demo_loop_two_three fuel 0

/-! ## The race -/

theorem inv_launch (attempts : List (Option (GoResult Nat))) : Inv attempts (launch attempts) := by
  refine ⟨?_, ?_, ?_, ?_, ?_, ?_, ?_⟩ <;> simp [launch]

theorem slot_running {attempts : List (Option (GoResult Nat))} {s : RaceState}
    (hinv : Inv attempts s) {i : Nat} {a : Option (GoResult Nat)}
    (h : s.gs[i]? = some (Goroutine.running a)) : attempts[i]? = some a := by
  rcases hinv.slots i with h1 | h1
  · rw [h] at h1; simp at h1
  · rw [h] at h1
    cases ha : attempts[i]? with
    | none => simp [ha] at h1
    | some b => simp [ha] at h1; rw [h1]

/-- The invariant is kept by every step. -/
theorem inv_step {attempts : List (Option (GoResult Nat))} {s s' : RaceState} {e : Event}
    (hinv : Inv attempts s) (h : step s e = some s') : Inv attempts s' := by
  unfold step at h
  cases hc : s.crashed with
  | true => simp [hc] at h
  | false =>
    simp only [hc, Bool.false_eq_true, if_false] at h
    cases e with
    | recv =>
      simp only at h
      cases hm : s.main with
      | launching =>
        simp only [hm, Option.some.injEq] at h
        subst h
        refine ⟨hinv.slots, hinv.finished, ?_, hinv.closedDone, ?_, by simp, ?_⟩
        · intro h1; by_cases hcl : s.closed = true <;> simp_all
        · intro p h1; by_cases hcl : s.closed = true <;> simp_all
        · intro h1; by_cases hcl : s.closed = true <;> simp_all
      | receiving => simp [hm] at h
      | returned r => simp [hm] at h
    | finish i =>
      simp only [List.get?_eq_getElem?] at h
      cases hg : s.gs[i]? with
      | none => simp [hg] at h
      | some g =>
        have hlt : i < s.gs.length := by
          by_contra hge
          rw [List.getElem?_eq_none (by omega)] at hg
          simp at hg
        cases g with
        | done => simp [hg] at h
        | running a =>
          have hat := slot_running hinv hg
          cases a with
          | none => simp [hg] at h
          | some r =>
            cases r with
            | ok p =>
              simp only [hg, Option.some.injEq] at h
              subst h
              refine ⟨?_, ?_, ?_, ?_, ?_, by simp, ?_⟩
              · intro j
                by_cases hij : i = j
                · subst hij; left; simp [hlt]
                · simp only [List.getElem?_set_ne hij]; exact hinv.slots j
              · intro j hj
                by_cases hij : i = j
                · subst hij; left; exact ⟨p, hat⟩
                · simp only [List.getElem?_set_ne hij] at hj; exact hinv.finished j hj
              · intro h1
                cases hm : s.main <;> simp [hm, trySend] at h1
              · intro hcl g hgm
                have := hinv.closedDone hcl
                rcases List.mem_or_eq_of_mem_set hgm with h2 | h2
                · exact this g h2
                · exact h2
              · intro p' h1
                cases hm : s.main with
                | launching => simp [hm, trySend] at h1
                | receiving =>
                  simp [hm, trySend] at h1
                  subst h1
                  exact List.getElem?_mem hat
                | returned r =>
                  simp [hm, trySend] at h1
                  exact hinv.winner p' (by rw [hm, h1])
              · intro h1
                cases hm : s.main with
                | launching => simp [hm, trySend] at h1
                | receiving => simp [hm, trySend] at h1
                | returned r =>
                  simp [hm, trySend] at h1
                  exact hinv.empty (by rw [hm, h1])
            | err e =>
              simp only [hg, Option.some.injEq] at h
              subst h
              refine ⟨?_, ?_, hinv.recvOpen, ?_, hinv.winner, by simp, hinv.empty⟩
              · intro j
                by_cases hij : i = j
                · subst hij; left; simp [hlt]
                · simp only [List.getElem?_set_ne hij]; exact hinv.slots j
              · intro j hj
                by_cases hij : i = j
                · subst hij; right; exact ⟨e, hat⟩
                · simp only [List.getElem?_set_ne hij] at hj; exact hinv.finished j hj
              · intro hcl g hgm
                have := hinv.closedDone hcl
                rcases List.mem_or_eq_of_mem_set hgm with h2 | h2
                · exact this g h2
                · exact h2
            | panic =>
              simp only [hg, Option.some.injEq] at h
              subst h
              exact ⟨hinv.slots, hinv.finished, hinv.recvOpen, hinv.closedDone, hinv.winner,
                fun _ => List.getElem?_mem hat, hinv.empty⟩
    | close =>
      simp only at h
      split at h
      · rename_i hguard
        simp only [Option.some.injEq] at h
        subst h
        refine ⟨hinv.slots, hinv.finished, ?_, ?_, ?_, by simp, ?_⟩
        · intro h1
          cases hm : s.main <;> simp [hm, onClose] at h1
        · intro _ g hgm
          have := hguard.2
          rw [List.all_eq_true] at this
          simpa using this g hgm
        · intro p h1
          cases hm : s.main with
          | launching => simp [hm, onClose] at h1
          | receiving => simp [hm, onClose] at h1
          | returned r =>
            simp [hm, onClose] at h1
            exact hinv.winner p (by rw [hm, h1])
        · intro _; rfl
      · simp at h

/-- The invariant is kept by every schedule. -/
theorem inv_run {attempts : List (Option (GoResult Nat))} (sched : List Event) :
    ∀ s, Inv attempts s → Inv attempts (run s sched) := by
  induction sched with
  | nil => intro s h; exact h
  | cons e rest ih =>
    intro s h
    simp only [run, List.foldl_cons]
    apply ih
    cases hs : step s e with
    | none => simpa using h
    | some s' => simpa using inv_step h hs

theorem filter_set_done (l : List Goroutine) :
    ∀ (i : Nat) (a : Option (GoResult Nat)), l[i]? = some (Goroutine.running a) →
      ((l.set i Goroutine.done).filter (fun g => g != Goroutine.done)).length + 1 =
        (l.filter (fun g => g != Goroutine.done)).length := by
  induction l with
  | nil => intro i a h; simp at h
  | cons g rest ih =>
    intro i a h
    cases i with
    | zero =>
      simp only [List.getElem?_cons_zero, Option.some.injEq] at h
      subst h
      have hne : (Goroutine.running a != Goroutine.done) = true := by simp
      simp [List.filter_cons, hne]
    | succ j =>
      simp only [List.getElem?_cons_succ] at h
      have := ih j a h
      simp only [List.set_cons_succ, List.filter_cons]
      by_cases hg : (g != Goroutine.done) = true
      · simp only [hg, if_true, List.length_cons]; omega
      · simp only [hg, if_false]; exact this

/-- Every step lowers the number of pending events: a race has no infinite run. -/
theorem step_pending_lt {s s' : RaceState} {e : Event} (h : step s e = some s') :
    pending s' < pending s := by
  unfold step at h
  cases hc : s.crashed with
  | true => simp [hc] at h
  | false =>
    simp only [hc, Bool.false_eq_true, if_false] at h
    cases e with
    | recv =>
      simp only at h
      cases hm : s.main with
      | launching =>
        simp only [hm, Option.some.injEq] at h
        subst h
        unfold pending
        by_cases hcl : s.closed = true <;> simp [hc, hm, hcl]
      | receiving => simp [hm] at h
      | returned r => simp [hm] at h
    | finish i =>
      simp only [List.get?_eq_getElem?] at h
      cases hg : s.gs[i]? with
      | none => simp [hg] at h
      | some g =>
        cases g with
        | done => simp [hg] at h
        | running a =>
          have hcount := filter_set_done s.gs i a hg
          cases a with
          | none => simp [hg] at h
          | some r =>
            cases r with
            | ok p =>
              simp only [hg, Option.some.injEq] at h
              subst h
              unfold pending
              cases hm : s.main <;> simp [hc, hm, trySend] <;> omega
            | err e =>
              simp only [hg, Option.some.injEq] at h
              subst h
              unfold pending
              simp [hc]
              omega
            | panic =>
              simp only [hg, Option.some.injEq] at h
              subst h
              unfold pending
              simp [hc]
    | close =>
      simp only at h
      split at h
      · rename_i hguard
        simp only [Option.some.injEq] at h
        subst h
        unfold pending
        cases hm : s.main <;> simp [hc, hm, hguard.1, onClose]
      · simp at h

/-- A race whose attempts all return an error: the caller has returned `nil` or is
still to return, and it has returned once nothing more can happen. -/
theorem race_all_errors {attempts : List (Option (GoResult Nat))}
    (hall : ∀ a ∈ attempts, ∃ e, a = some (GoResult.err e)) (sched : List Event) :
    (raceOutcome (run (launch attempts) sched) = Outcome.returned none ∨
      raceOutcome (run (launch attempts) sched) = Outcome.blocked) ∧
    (Quiescent (run (launch attempts) sched) →
      raceOutcome (run (launch attempts) sched) = Outcome.returned none) := by
  have hinv := inv_run sched _ (inv_launch attempts)
  generalize run (launch attempts) sched = s at hinv
  have hcr : s.crashed = false := by
    cases hc : s.crashed with
    | false => rfl
    | true =>
      obtain ⟨e, he⟩ := hall _ (hinv.crash hc)
      simp at he
  have hnw : ∀ p, s.main ≠ MainState.returned (some p) := by
    intro p hp
    obtain ⟨e, he⟩ := hall _ (hinv.winner p hp)
    simp at he
  constructor
  · unfold raceOutcome
    cases hm : s.main with
    | launching => simp [hcr]
    | receiving => simp [hcr]
    | returned r =>
      cases r with
      | none => simp
      | some p => exact absurd hm (hnw p)
  · intro hq
    unfold raceOutcome
    cases hm : s.main with
    | launching =>
      have := hq Event.recv
      simp [step, hcr, hm] at this
    | receiving =>
      exfalso
      have hopen := hinv.recvOpen hm
      by_cases hdone : ∀ g ∈ s.gs, g = Goroutine.done
      · have := hq Event.close
        simp [step, hcr, hopen] at this
        obtain ⟨g, hg, hne⟩ := this
        exact hne (hdone g hg)
      · push_neg at hdone
        obtain ⟨g, hg, hne⟩ := hdone
        obtain ⟨i, hi⟩ := List.mem_iff_getElem?.1 hg
        cases g with
        | done => exact hne rfl
        | running a =>
          obtain ⟨e, he⟩ := hall a (List.getElem?_mem (slot_running hinv hi))
          subst he
          have := hq (Event.finish i)
          simp [step, hcr, hi] at this
    | returned r =>
      cases r with
      | none => rfl
      | some p => exact absurd hm (hnw p)

/-- When some attempt never returns or panics, the channel is never closed and the caller never returns `nil`. -/
theorem race_never_closes {attempts : List (Option (GoResult Nat))} {i : Nat}
    {a : Option (GoResult Nat)} (hi : attempts[i]? = some a)
    (ha : a = none ∨ a = some GoResult.panic) (sched : List Event) :
    (run (launch attempts) sched).closed = false ∧
      (run (launch attempts) sched).main ≠ MainState.returned none := by
  have hinv := inv_run sched _ (inv_launch attempts)
  generalize run (launch attempts) sched = s at hinv
  have hcl : s.closed = false := by
    cases hc : s.closed with
    | false => rfl
    | true =>
      exfalso
      rcases hinv.slots i with h1 | h1
      · rcases hinv.finished i h1 with ⟨p, hp⟩ | ⟨e, he⟩
        · rw [hi] at hp
          rcases ha with h | h <;> simp [h] at hp
        · rw [hi] at he
          rcases ha with h | h <;> simp [h] at he
      · rw [hi] at h1
        have := hinv.closedDone hc _ (List.getElem?_mem h1)
        simp at this
  refine ⟨hcl, fun hm => ?_⟩
  rw [hinv.empty hm] at hcl
  exact Bool.noConfusion hcl

theorem race_no_return {attempts : List (Option (GoResult Nat))} {i : Nat}
    {a : Option (GoResult Nat)} (hi : attempts[i]? = some a)
    (ha : a = none ∨ a = some GoResult.panic)
    (hok : ∀ p, some (GoResult.ok p) ∉ attempts) (sched : List Event) (r : Option Nat) :
    (run (launch attempts) sched).main ≠ MainState.returned r := by
  intro hm
  cases r with
  | none => exact (race_never_closes hi ha sched).2 hm
  | some p => exact hok p ((inv_run sched _ (inv_launch attempts)).winner p hm)

/-- When no attempt succeeds or panics and one never returns, the caller stays blocked. -/
theorem race_blocked {attempts : List (Option (GoResult Nat))} {i : Nat}
    (hi : attempts[i]? = some none) (hok : ∀ p, some (GoResult.ok p) ∉ attempts)
    (hpanic : some GoResult.panic ∉ attempts) (sched : List Event) :
    raceOutcome (run (launch attempts) sched) = Outcome.blocked := by
  have hm := race_no_return hi (Or.inl rfl) hok sched
  have hinv := inv_run sched _ (inv_launch attempts)
  generalize run (launch attempts) sched = s at hinv hm
  have hcr : s.crashed = false := by
    cases hc : s.crashed with
    | false => rfl
    | true => exact absurd (hinv.crash hc) hpanic
  unfold raceOutcome
  cases hmain : s.main with
  | launching => simp [hcr]
  | receiving => simp [hcr]
  | returned r => exact absurd hmain (hm r)

/-- When no attempt succeeds, the program has panicked once a panicking goroutine has run. -/
theorem race_panics {attempts : List (Option (GoResult Nat))} {i : Nat}
    (hi : attempts[i]? = some (some GoResult.panic))
    (hok : ∀ p, some (GoResult.ok p) ∉ attempts) (sched : List Event) :
    raceOutcome (run (launch attempts) (sched ++ [Event.finish i])) = Outcome.panicked := by
  have hm := race_no_return hi (Or.inr rfl) hok sched
  have hinv := inv_run sched _ (inv_launch attempts)
  have hrun : run (launch attempts) (sched ++ [Event.finish i]) =
      (step (run (launch attempts) sched) (Event.finish i)).getD (run (launch attempts) sched) := by
    simp [run, List.foldl_append]
  rw [hrun]
  generalize run (launch attempts) sched = s at hinv hm
  cases hc : s.crashed with
  | true =>
    have : step s (Event.finish i) = none := by simp [step, hc]
    rw [this]
    unfold raceOutcome
    cases hmain : s.main with
    | launching => simp [hc]
    | receiving => simp [hc]
    | returned r => exact absurd hmain (hm r)
  | false =>
    have hslot : s.gs[i]? = some (Goroutine.running (some GoResult.panic)) := by
      rcases hinv.slots i with h1 | h1
      · rcases hinv.finished i h1 with ⟨p, hp⟩ | ⟨e, he⟩
        · rw [hi] at hp; simp at hp
        · rw [hi] at he; simp at he
      · rw [hi] at h1; exact h1
    have : step s (Event.finish i) = some { s with crashed := true } := by
      simp [step, hc, hslot]
    rw [this]
    unfold raceOutcome
    cases hmain : s.main with
    | launching => simp
    | receiving => simp
    | returned r => exact absurd hmain (hm r)

theorem attempts_two (f : Nat → Option (GoResult Nat)) :
    (List.range (Int.toNat 2)).map f = [f 0, f 1] := rfl

/-- The race of `generateSafePrimeConcurrent` when every attempt returns an error. -/
theorem concurrent_all_fail (fuel : Nat) (srcs : Nat → RandSource)
    (minBits maxBits numGoroutines : Int) (hn : 0 ≤ numGoroutines)
    (hall : ∀ i : Nat, (i : Int) < numGoroutines →
      ∃ e, generateSafePrime fuel (srcs i) minBits maxBits = some (GoResult.err e))
    (sched : List Event) :
    (generateSafePrimeConcurrent fuel srcs sched minBits maxBits numGoroutines =
        Outcome.returned none ∨
      generateSafePrimeConcurrent fuel srcs sched minBits maxBits numGoroutines =
        Outcome.blocked) ∧
    (Quiescent (raceState fuel srcs sched minBits maxBits numGoroutines) →
      generateSafePrimeConcurrent fuel srcs sched minBits maxBits numGoroutines =
        Outcome.returned none) := by
  unfold generateSafePrimeConcurrent raceState
  rw [if_neg (not_lt.2 hn)]
  apply race_all_errors
  intro a ha
  obtain ⟨i, hi, rfl⟩ := List.mem_map.1 ha
  apply hall
  have := List.mem_range.1 hi
  omega

theorem quiescent_demo :
    Quiescent (raceState 1 (fun _ => demoSource)
      [Event.recv, Event.finish 0, Event.finish 1, Event.close] 0 0 2) := by
  intro e
  cases e with
  | recv => decide
  | close => decide
  | finish i =>
    rcases i with _ | _ | i
    · decide
    · decide
    · rfl

theorem quiescent_demo_one :
    Quiescent (raceState 1 (fun _ => demoSource)
      [Event.recv, Event.finish 0, Event.finish 1, Event.close] 0 1 2) := by
  intro e
  cases e with
  | recv => decide
  | close => decide
  | finish i =>
    rcases i with _ | _ | i
    · decide
    · decide
    · rfl

theorem forgetError_done (g : Goroutine) :
    (forgetError g == Goroutine.done) = (g == Goroutine.done) := by
  cases g with
  | done => rfl
  | running a =>
    cases a with
    | none => rfl
    | some r => cases r <;> rfl

theorem step_forgetErrors (s : RaceState) (e : Event) :
    step (forgetErrors s) e = (step s e).map forgetErrors := by
  unfold step
  cases hc : s.crashed with
  | true => simp [forgetErrors, hc]
  | false =>
    have hc' : (forgetErrors s).crashed = false := hc
    simp only [hc', Bool.false_eq_true, if_false]
    cases e with
    | recv =>
      simp only
      cases hm : s.main with
      | launching =>
        have : (forgetErrors s).main = MainState.launching := hm
        simp [this, forgetErrors, hm]
      | receiving =>
        have : (forgetErrors s).main = MainState.receiving := hm
        simp [this]
      | returned r =>
        have : (forgetErrors s).main = MainState.returned r := hm
        simp [this]
    | finish i =>
      simp only [List.get?_eq_getElem?]
      have hget : (forgetErrors s).gs[i]? = (s.gs[i]?).map forgetError := by
        simp [forgetErrors]
      rw [hget]
      cases hg : s.gs[i]? with
      | none => simp
      | some g =>
        cases g with
        | done => simp [forgetError]
        | running a =>
          cases a with
          | none => simp [forgetError]
          | some r =>
            cases r with
            | ok p => simp [forgetError, forgetErrors, List.map_set]
            | err e' => simp [forgetError, forgetErrors, List.map_set]
            | panic => simp [forgetError, forgetErrors]
    | close =>
      simp only
      have hall : (forgetErrors s).gs.all (fun g => g == Goroutine.done) =
          s.gs.all (fun g => g == Goroutine.done) := by
        simp only [forgetErrors, List.all_map]
        congr 1
        funext g
        exact forgetError_done g
      have hcl : (forgetErrors s).closed = s.closed := rfl
      rw [hall, hcl]
      split_ifs
      · simp [forgetErrors]
      · simp

theorem run_forgetErrors (sched : List Event) :
    ∀ s, run (forgetErrors s) sched = forgetErrors (run s sched) := by
  induction sched with
  | nil => intro s; rfl
  | cons e rest ih =>
    intro s
    simp only [run, List.foldl_cons]
    rw [step_forgetErrors]
    cases hs : step s e with
    | none => simpa [run] using ih s
    | some s' => simpa [run] using ih s'

theorem raceOutcome_forgetErrors (s : RaceState) :
    raceOutcome (forgetErrors s) = raceOutcome s := rfl

/-- Two races of two attempts that all return errors go the same way on every schedule. -/
theorem race_same_of_errors (e0 e1 e2 e3 : RandError) (sched : List Event) :
    raceOutcome (run (launch [some (GoResult.err e0), some (GoResult.err e1)]) sched) =
      raceOutcome (run (launch [some (GoResult.err e2), some (GoResult.err e3)]) sched) := by
  rw [← raceOutcome_forgetErrors (run (launch [some (GoResult.err e0), some (GoResult.err e1)]) sched),
    ← raceOutcome_forgetErrors (run (launch [some (GoResult.err e2), some (GoResult.err e3)]) sched),
    ← run_forgetErrors, ← run_forgetErrors]
  rfl

/-! ## Parsing and the worker -/

theorem fastDigits_none : ∀ (ds : List Char) (n : Nat), ds.all Char.isDigit = false →
    fastDigits n ds = none := by
  intro ds
  induction ds with
  | nil => intro n h; simp at h
  | cons c cs ih =>
    intro n h
    rw [fastDigits]
    by_cases hc : c.isDigit = true
    · rw [if_pos hc]
      apply ih
      simpa [List.all_cons, hc] using h
    · rw [if_neg hc]

theorem parseUintLoop_bad : ∀ (ds : List Char) (n : Nat), ds.all Char.isDigit = false →
    parseUintLoop n ds = (0, some NumError.errSyntax) ∨
      parseUintLoop n ds = (18446744073709551615, some NumError.errRange) := by
  intro ds
  induction ds with
  | nil => intro n h; simp at h
  | cons c cs ih =>
    intro n h
    rw [parseUintLoop]
    by_cases hc : c.isDigit = true
    · rw [if_pos hc]
      split_ifs
      · right; rfl
      · right; rfl
      · apply ih
        simpa [List.all_cons, hc] using h
    · rw [if_neg hc]
      left; rfl

theorem not_decimal_digits (data : String)
    (h : (!(splitSign data.toList).2.isEmpty && (splitSign data.toList).2.all Char.isDigit) = false)
    (hemp : ¬ (splitSign data.toList).2.isEmpty = true) :
    (splitSign data.toList).2.all Char.isDigit = false := by
  cases hA : (splitSign data.toList).2.all Char.isDigit with
  | false => rfl
  | true =>
    have hE : (splitSign data.toList).2.isEmpty = false := by
      cases hE' : (splitSign data.toList).2.isEmpty with
      | false => rfl
      | true => exact absurd hE' hemp
    rw [hA, hE] at h
    exact absurd h (by decide)

theorem atoi_not_decimal (data : String) (h : isDecimalInteger data = false) :
    (Atoi data).1 = 0 ∨ (Atoi data).1 = 9223372036854775807 ∨
      (Atoi data).1 = -9223372036854775808 := by
  unfold isDecimalInteger at h
  unfold Atoi
  split_ifs
  · left
    unfold atoiFast
    simp only
    by_cases hemp : (splitSign data.toList).2.isEmpty = true
    · rw [if_pos hemp]
    · rw [if_neg hemp]
      have hall : (splitSign data.toList).2.all Char.isDigit = false :=
        not_decimal_digits data h hemp
      rw [fastDigits_none _ 0 hall]
  · unfold ParseInt
    by_cases hnil : data.toList.isEmpty = true
    · left; rw [if_pos hnil]
    · rw [if_neg hnil]
      simp only
      by_cases hemp : (splitSign data.toList).2.isEmpty = true
      · left
        unfold ParseUint
        rw [if_pos hemp]
      · have hall : (splitSign data.toList).2.all Char.isDigit = false :=
          not_decimal_digits data h hemp
        unfold ParseUint
        rw [if_neg hemp]
        rcases parseUintLoop_bad _ 0 hall with h1 | h1
        · left; rw [h1]
        · right
          rw [h1]
          cases hs : (splitSign data.toList).1 <;> simp

/-- What `processWork` does on a payload of size 0. -/
theorem processWork_size_zero (fuel : Nat) (srcs : Nat → RandSource)
    (hs : ∀ i, (srcs i).Sound) (sched : List Event) (data : String)
    (hsize : (Atoi data).1 = 0) :
    (processWork (fuel + 1) srcs sched data = Outcome.returned "Size to small!" ∨
      processWork (fuel + 1) srcs sched data = Outcome.blocked) ∧
    (Quiescent (raceState (fuel + 1) srcs sched 0 0 2) →
      processWork (fuel + 1) srcs sched data = Outcome.returned "Size to small!") := by
  have hw : wrap64 ((0 : Int) * 2) = 0 := by decide
  have hatt : ∀ i, ∃ e, generateSafePrime (fuel + 1) (srcs i) 0 0 = some (GoResult.err e) :=
    fun i => attempt_degenerate fuel (srcs i) (hs i) 0 0 (by decide) (by decide)
  have hrace := concurrent_all_fail (fuel + 1) srcs 0 0 2 (by decide) (fun i _ => hatt i) sched
  simp only [processWork, hsize, hw]
  constructor
  · rcases hrace.1 with h | h <;> rw [h] <;> simp
  · intro hq
    rw [hrace.2 hq]

/-- What `processWork` does when both attempts return errors, whichever errors. -/
theorem processWork_failing (fuel : Nat) (srcs : Nat → RandSource) (sched : List Event)
    (data : String) (e0 e1 : RandError)
    (h0 : generateSafePrime fuel (srcs 0) (Atoi data).1 (wrap64 ((Atoi data).1 * 2)) =
      some (GoResult.err e0))
    (h1 : generateSafePrime fuel (srcs 1) (Atoi data).1 (wrap64 ((Atoi data).1 * 2)) =
      some (GoResult.err e1)) :
    (raceOutcome (run (launch [some (GoResult.err RandError.reader),
        some (GoResult.err RandError.reader)]) sched) = Outcome.returned none →
      processWork fuel srcs sched data = Outcome.returned "Size to small!") ∧
    (raceOutcome (run (launch [some (GoResult.err RandError.reader),
        some (GoResult.err RandError.reader)]) sched) = Outcome.blocked →
      processWork fuel srcs sched data = Outcome.blocked) := by
  simp only [processWork, generateSafePrimeConcurrent, raceState, attempts_two, h0, h1]
  rw [race_same_of_errors e0 e1 RandError.reader RandError.reader]
  constructor <;> intro h <;> rw [h] <;> simp

/-- Both attempts of `processWork` return errors on a payload that is no decimal integer. -/
theorem attempts_not_decimal (data : String) (h : isDecimalInteger data = false) (fuel : Nat)
    (src : RandSource) (hs : src.Sound) :
    ∃ e, generateSafePrime (fuel + 1) src (Atoi data).1 (wrap64 ((Atoi data).1 * 2)) =
      some (GoResult.err e) := by
  rcases atoi_not_decimal data h with hv | hv | hv <;> rw [hv]
  · exact attempt_degenerate fuel src hs _ _ (by decide) (by decide)
  · exact attempt_degenerate fuel src hs _ _ (by decide) (by decide)
  · exact attempt_degenerate fuel src hs _ _ (by decide) (by decide)

theorem demo_processWork_size_three (fuel : Nat) (sched : List Event) :
    processWork fuel (fun _ => demoSource) sched "3" = Outcome.blocked := by
  have hat : Atoi "3" = (3, none) := by decide
  have h0 : [(none : Option (GoResult Nat)), none][0]? = some none := rfl
  have hb := race_blocked h0 (by intro p; simp) (by simp) sched
  simp only [processWork, hat, generateSafePrimeConcurrent, raceState, attempts_two,
    demo_attempt_size_three]
  rw [hb]
  simp

/-! ## The claims -/

/-- Claim C1: for every minBits, maxBits and every sound random source, a value `p`
returned without error by `generateSafePrime` has `(minBits+1)/2 <= bitlength((p-1)/2)
<= (maxBits+1)/2` (the source's own half-bit bounds), and `p` and `(p-1)/2` are both
prime. -/
theorem generateSafePrime_returns_safe_prime (fuel : Nat) (src : RandSource) (minBits maxBits : Int)
    (p : Nat) (hs : src.Sound)
    (h : generateSafePrime fuel src minBits maxBits = some (GoResult.ok p)) :
    halfBits minBits ≤ (Nat.size ((p - 1) / 2) : Int) ∧
    (Nat.size ((p - 1) / 2) : Int) ≤ halfBits maxBits ∧
    Nat.Prime p ∧ Nat.Prime ((p - 1) / 2) := by
  obtain ⟨q, hp, hq, hpp, _, h1, h2⟩ :=
    safePrimeLoop_ok src hs _ _ (halfBits_range minBits) (halfBits_range maxBits) fuel 0 p h
  have hq2 : (p - 1) / 2 = q := by omega
  rw [hq2]
  exact ⟨h1, h2, hpp, hq⟩

theorem generateSafePrime_returns_safe_prime_witness :
    demoSource.Sound ∧ generateSafePrime 1 demoSource 7 14 = some (GoResult.ok 227) ∧
    (halfBits 7 ≤ (Nat.size ((227 - 1) / 2) : Int) ∧
      (Nat.size ((227 - 1) / 2) : Int) ≤ halfBits 14 ∧
      Nat.Prime 227 ∧ Nat.Prime ((227 - 1) / 2)) :=
  ⟨demoSource_sound, by decide,
    generateSafePrime_returns_safe_prime 1 demoSource 7 14 227 demoSource_sound (by decide)⟩

/-- Claim C2: every integer `n >= 2` divisible by a prime `<= 97` is reported by
`isDivisibleByAnySmallPrime`, and no prime above 97 is. -/
theorem isDivisibleByAnySmallPrime_spec :
    (∀ n : Int, 2 ≤ n → (∃ q : Nat, q.Prime ∧ q ≤ 97 ∧ (q : Int) ∣ n) →
      isDivisibleByAnySmallPrime n = true) ∧
    (∀ p : Nat, p.Prime → 97 < p → isDivisibleByAnySmallPrime (p : Int) = false) := by
  constructor
  · rintro n _ ⟨q, hq, hle, hdvd⟩
    exact (isDivisible_iff n).2 ⟨(q : Int), smallPrimes_complete q hq hle, hdvd⟩
  · intro p hp hbig
    cases hres : isDivisibleByAnySmallPrime (p : Int) with
    | false => rfl
    | true =>
      exfalso
      obtain ⟨s, hs, hdvd⟩ := (isDivisible_iff _).1 hres
      obtain ⟨k, hk, h2, h97⟩ := smallPrimes_bounds s hs
      subst hk
      have hkp : k ∣ p := Int.natCast_dvd_natCast.1 hdvd
      rcases (Nat.dvd_prime hp).1 hkp with h1 | h1 <;> omega

theorem isDivisibleByAnySmallPrime_spec_witness :
    isDivisibleByAnySmallPrime 202 = true ∧ isDivisibleByAnySmallPrime 101 = false :=
  ⟨isDivisibleByAnySmallPrime_spec.1 202 (by norm_num) ⟨2, by norm_num, by norm_num, by norm_num⟩,
    isDivisibleByAnySmallPrime_spec.2 101 (by norm_num) (by norm_num)⟩

/-- Claim C3, at the payload `-2`: both attempts panic inside `rand.Int` (its bound
is `0`), so `processWork` never returns, and the program has panicked as soon as
one of the goroutines has run. -/
theorem processWork_size_neg_two (fuel : Nat) (srcs : Nat → RandSource) (sched : List Event) :
    (∀ r, processWork (fuel + 1) srcs sched "-2" ≠ Outcome.returned r) ∧
    processWork (fuel + 1) srcs (sched ++ [Event.finish 0]) "-2" = Outcome.panicked := by
  have hat : Atoi "-2" = (-2, none) := by decide
  have hatt : ∀ i, generateSafePrime (fuel + 1) (srcs i) (-2) (wrap64 (-2 * 2)) =
      some GoResult.panic := fun i => attempt_size_neg_two fuel (srcs i)
  have hok : ∀ p, some (GoResult.ok p) ∉
      [some (GoResult.panic : GoResult Nat), some GoResult.panic] := by
    intro p; simp
  have h0 : [some (GoResult.panic : GoResult Nat), some GoResult.panic][0]? =
      some (some GoResult.panic) := rfl
  constructor
  · intro r
    have hm := race_no_return h0 (Or.inr rfl) hok sched
    simp only [processWork, hat, generateSafePrimeConcurrent, raceState, attempts_two, hatt]
    generalize run _ sched = s at hm
    unfold raceOutcome
    cases hmain : s.main with
    | launching => cases s.crashed <;> simp
    | receiving => cases s.crashed <;> simp
    | returned r' => exact absurd hmain (hm r')
  · have hp := race_panics h0 hok sched
    simp only [processWork, hat, generateSafePrimeConcurrent, raceState, attempts_two, hatt]
    rw [hp]
    simp

/-- Claim C4, at one attempt that succeeds before the caller is in the receive:
the attempt returns the safe prime 227, the non-blocking send finds no receiver
and drops it, and `generateSafePrimeConcurrent` returns empty. When the caller is
in the receive first, the same attempt is delivered. -/
theorem race_drops_successful_attempt :
    generateSafePrime 1 demoSource 7 14 = some (GoResult.ok 227) ∧
    generateSafePrimeConcurrent 1 (fun _ => demoSource)
      [Event.finish 0, Event.close, Event.recv] 7 14 1 = Outcome.returned none ∧
    generateSafePrimeConcurrent 1 (fun _ => demoSource)
      [Event.recv, Event.finish 0, Event.close] 7 14 1 = Outcome.returned (some 227) := by
  refine ⟨by decide, by decide, by decide⟩

/-- Claim C5: when every launched attempt of `generateSafePrimeConcurrent` returns an
error (and the goroutine count is not negative), the caller never gets a prime and
never sees a panic; it has returned the empty result once nothing more can happen,
and every step of the race uses up one of finitely many pending events, so it does
not block. -/
theorem generateSafePrimeConcurrent_all_attempts_fail (fuel : Nat) (srcs : Nat → RandSource)
    (minBits maxBits numGoroutines : Int) (hn : 0 ≤ numGoroutines)
    (hall : ∀ i : Nat, (i : Int) < numGoroutines →
      ∃ e, generateSafePrime fuel (srcs i) minBits maxBits = some (GoResult.err e))
    (sched : List Event) :
    (generateSafePrimeConcurrent fuel srcs sched minBits maxBits numGoroutines =
        Outcome.returned none ∨
      generateSafePrimeConcurrent fuel srcs sched minBits maxBits numGoroutines =
        Outcome.blocked) ∧
    (Quiescent (raceState fuel srcs sched minBits maxBits numGoroutines) →
      generateSafePrimeConcurrent fuel srcs sched minBits maxBits numGoroutines =
        Outcome.returned none) ∧
    (∀ e s', step (raceState fuel srcs sched minBits maxBits numGoroutines) e = some s' →
      pending s' < pending (raceState fuel srcs sched minBits maxBits numGoroutines)) :=
  ⟨(concurrent_all_fail fuel srcs minBits maxBits numGoroutines hn hall sched).1,
    (concurrent_all_fail fuel srcs minBits maxBits numGoroutines hn hall sched).2,
    fun _ _ h => step_pending_lt h⟩

theorem generateSafePrimeConcurrent_all_attempts_fail_witness :
    generateSafePrimeConcurrent 1 (fun _ => demoSource)
      [Event.recv, Event.finish 0, Event.finish 1, Event.close] 0 0 2 = Outcome.returned none :=
  (generateSafePrimeConcurrent_all_attempts_fail 1 (fun _ => demoSource) 0 0 2 (by decide)
    (fun _ _ => ⟨RandError.primeSize,
      (by decide : generateSafePrime 1 demoSource 0 0 = some (GoResult.err RandError.primeSize))⟩)
    [Event.recv, Event.finish 0, Event.finish 1, Event.close]).2.1 quiescent_demo

/-- Counterexample to claim C6 as stated: with `minBits = 5` and `maxBits = 1` the one
attempt is launched and panics inside `rand.Int` (bound `-1`), so the call does not
return empty; with `minBits = maxBits = 0` both goroutines are launched and run
their attempts; and with `minBits = -3`, `maxBits = 1` the attempt asks the random
source for a value below 3, its result depending on what the source gives. -/
theorem generateSafePrimeConcurrent_degenerate_panics :
    (generateSafePrime 1 demoSource 5 1 = some GoResult.panic ∧
      generateSafePrimeConcurrent 1 (fun _ => demoSource) [Event.recv, Event.finish 0] 5 1 1 =
        Outcome.panicked) ∧
    (raceState 1 (fun _ => demoSource) [] 0 0 2).gs =
      [Goroutine.running (some (GoResult.err RandError.primeSize)),
        Goroutine.running (some (GoResult.err RandError.primeSize))] ∧
    (generateSafePrime 1 demoSource (-3) 1 = some (GoResult.err RandError.primeSize) ∧
      generateSafePrime 1 brokenSource (-3) 1 = some (GoResult.err RandError.reader)) := by
  refine ⟨⟨by decide, by decide⟩, by decide, by decide, by decide⟩

/-- Claim C6, amended: for a Go `int` `maxBits < 2`, a half-bit range that is not empty
and a goroutine count that is not negative, the attempts are launched all the same,
one goroutine each; each of them returns an error from `rand.Int` or `rand.Prime`,
never a prime, and the caller has returned the empty result once nothing more can
happen. -/
theorem generateSafePrimeConcurrent_degenerate (fuel : Nat) (srcs : Nat → RandSource)
    (sched : List Event) (minBits maxBits numGoroutines : Int)
    (hs : ∀ i, (srcs i).Sound) (hint : -9223372036854775808 ≤ maxBits) (hmax : maxBits < 2)
    (hrange : halfBits minBits ≤ halfBits maxBits) (hn : 0 ≤ numGoroutines) :
    (raceState (fuel + 1) srcs [] minBits maxBits numGoroutines).gs.length =
      numGoroutines.toNat ∧
    (∀ i, ∃ e, generateSafePrime (fuel + 1) (srcs i) minBits maxBits = some (GoResult.err e)) ∧
    (generateSafePrimeConcurrent (fuel + 1) srcs sched minBits maxBits numGoroutines =
        Outcome.returned none ∨
      generateSafePrimeConcurrent (fuel + 1) srcs sched minBits maxBits numGoroutines =
        Outcome.blocked) ∧
    (Quiescent (raceState (fuel + 1) srcs sched minBits maxBits numGoroutines) →
      generateSafePrimeConcurrent (fuel + 1) srcs sched minBits maxBits numGoroutines =
        Outcome.returned none) := by
  have hatt : ∀ i, ∃ e, generateSafePrime (fuel + 1) (srcs i) minBits maxBits =
      some (GoResult.err e) := fun i =>
    attempt_degenerate fuel (srcs i) (hs i) minBits maxBits
      (halfBits_le_one maxBits hint hmax) hrange
  have := concurrent_all_fail (fuel + 1) srcs minBits maxBits numGoroutines hn
    (fun i _ => hatt i) sched
  exact ⟨by simp [raceState, run, launch], hatt, this.1, this.2⟩

theorem generateSafePrimeConcurrent_degenerate_witness :
    generateSafePrimeConcurrent 1 (fun _ => demoSource)
      [Event.recv, Event.finish 0, Event.finish 1, Event.close] 0 1 2 = Outcome.returned none :=
  (generateSafePrimeConcurrent_degenerate 0 (fun _ => demoSource)
    [Event.recv, Event.finish 0, Event.finish 1, Event.close] 0 1 2
    (fun _ => demoSource_sound) (by decide) (by decide) (by decide) (by decide)).2.2.2
    quiescent_demo_one

/-- Counterexample to claim C7 as stated: the payload `99999999999999999999x` is no
decimal integer, yet `strconv.Atoi` reports a range error at the twentieth digit,
before it reaches the `x`, and `processWork` takes the size to be the largest `int`,
not zero: the race is called with `minBits = 2^63 - 1` and `maxBits = -2`. -/
theorem atoi_overflow_before_bad_character :
    isDecimalInteger "99999999999999999999x" = false ∧
    Atoi "99999999999999999999x" = (9223372036854775807, some NumError.errRange) ∧
    wrap64 (9223372036854775807 * 2) = -2 ∧
    Atoi "0" = (0, none) := by
  refine ⟨by decide, by decide, by decide, by decide⟩

/-- Claim C7, amended: on every payload that is no decimal integer `processWork` does
exactly what it does on the payload `0`: the only line it returns is `Size to small!`,
returned once both attempts have failed and the channel is closed, and there is no
error line of its own. The size it works with is zero, or the largest or the smallest
`int` when the digits overflow before the first bad character. -/
theorem processWork_malformed_payload (data : String) (h : isDecimalInteger data = false)
    (fuel : Nat) (srcs : Nat → RandSource) (hs : ∀ i, (srcs i).Sound) (sched : List Event) :
    ((Atoi data).1 = 0 ∨ (Atoi data).1 = 9223372036854775807 ∨
      (Atoi data).1 = -9223372036854775808) ∧
    processWork (fuel + 1) srcs sched data = processWork (fuel + 1) srcs sched "0" ∧
    (processWork (fuel + 1) srcs sched data = Outcome.returned "Size to small!" ∨
      processWork (fuel + 1) srcs sched data = Outcome.blocked) ∧
    (Quiescent (raceState (fuel + 1) srcs sched 0 0 2) →
      processWork (fuel + 1) srcs sched data = Outcome.returned "Size to small!") := by
  have hzero : (Atoi "0").1 = 0 := by decide
  have hz := processWork_size_zero fuel srcs hs sched "0" hzero
  obtain ⟨e0, h0⟩ := attempts_not_decimal data h fuel (srcs 0) (hs 0)
  obtain ⟨e1, h1⟩ := attempts_not_decimal data h fuel (srcs 1) (hs 1)
  have hzatt : ∀ i, ∃ e, generateSafePrime (fuel + 1) (srcs i) (Atoi "0").1
      (wrap64 ((Atoi "0").1 * 2)) = some (GoResult.err e) := by
    intro i
    rw [hzero]
    exact attempt_degenerate fuel (srcs i) (hs i) _ _ (by decide) (by decide)
  obtain ⟨z0, hz0⟩ := hzatt 0
  obtain ⟨z1, hz1⟩ := hzatt 1
  have hd := processWork_failing (fuel + 1) srcs sched data e0 e1 h0 h1
  have h0' := processWork_failing (fuel + 1) srcs sched "0" z0 z1 hz0 hz1
  have heq : processWork (fuel + 1) srcs sched data = processWork (fuel + 1) srcs sched "0" := by
    have hall : ∀ a ∈ [some (GoResult.err RandError.reader : GoResult Nat),
        some (GoResult.err RandError.reader)], ∃ e, a = some (GoResult.err e) := by
      intro a ha
      simp only [List.mem_cons, List.mem_singleton, List.not_mem_nil, or_false] at ha
      rcases ha with ha | ha <;> exact ⟨RandError.reader, ha⟩
    rcases (race_all_errors hall sched).1 with hr | hr
    · rw [hd.1 hr, h0'.1 hr]
    · rw [hd.2 hr, h0'.2 hr]
  refine ⟨atoi_not_decimal data h, heq, ?_, ?_⟩
  · rw [heq]; exact hz.1
  · intro hq; rw [heq]; exact hz.2 hq

theorem processWork_malformed_payload_witness :
    processWork 1 (fun _ => demoSource)
      [Event.recv, Event.finish 0, Event.finish 1, Event.close] "99999999999999999999x" =
        Outcome.returned "Size to small!" ∧
    processWork 1 (fun _ => demoSource)
      [Event.recv, Event.finish 0, Event.finish 1, Event.close] "abc" =
        Outcome.returned "Size to small!" :=
  ⟨(processWork_malformed_payload "99999999999999999999x" (by decide) 0 (fun _ => demoSource)
      (fun _ => demoSource_sound)
      [Event.recv, Event.finish 0, Event.finish 1, Event.close]).2.2.2 quiescent_demo,
    (processWork_malformed_payload "abc" (by decide) 0 (fun _ => demoSource)
      (fun _ => demoSource_sound)
      [Event.recv, Event.finish 0, Event.finish 1, Event.close]).2.2.2 quiescent_demo⟩

/-- Claim C8, at the requested size 3 (range `minBits = 3`, `maxBits = 6`): the safe
prime 5 lies in the range, its half 2 having two bits, yet no sound random source
makes `generateSafePrime 3 6` return a prime, because every prime of at most six
bits is in `smallPrimes` and the sieve rejects it; with a source whose reads do not
fail the loop never exits and `processWork` stays blocked on every schedule. -/
theorem processWork_size_three_blocks (fuel : Nat) (sched : List Event) :
    (Nat.Prime 5 ∧ Nat.Prime ((5 - 1) / 2) ∧ halfBits 3 ≤ (Nat.size ((5 - 1) / 2) : Int) ∧
      (Nat.size ((5 - 1) / 2) : Int) ≤ halfBits 6) ∧
    (∀ src : RandSource, src.Sound →
      ∀ p, generateSafePrime fuel src 3 6 ≠ some (GoResult.ok p)) ∧
    generateSafePrime fuel demoSource 3 6 = none ∧
    processWork fuel (fun _ => demoSource) sched "3" = Outcome.blocked := by
  refine ⟨⟨by norm_num, by norm_num, ?_, ?_⟩, ?_, demo_attempt_size_three fuel,
    demo_processWork_size_three fuel sched⟩
  · have : Nat.size ((5 - 1) / 2) = 2 := size_eq_succ 2 1 (by norm_num) (by norm_num)
    rw [this]; decide
  · have : Nat.size ((5 - 1) / 2) = 2 := size_eq_succ 2 1 (by norm_num) (by norm_num)
    rw [this]; decide
  · intro src hs p
    exact generateSafePrime_small_range fuel src hs 3 6 (by decide) p

/-- Claim C9, at the work item `3` (with a sound source whose reads do not fail): the
race never returns, so on every schedule and however long the attempts run the
worker writes the Status line and no terminal line after it; the client's loop
prints that line and does not reach its `break`. -/
theorem worker_size_three_one_line :
    demoSource.Sound ∧
    ∀ (fuel : Nat) (sched : List Event),
      worker fuel (fun _ => demoSource) sched 0 "3" =
        ["Status: Your task is being processed by worker 0"] ∧
      processServerResponse (worker fuel (fun _ => demoSource) sched 0 "3") =
        (["Status: Your task is being processed by worker 0"], false) := by
  refine ⟨demoSource_sound, fun fuel sched => ?_⟩
  have hw : worker fuel (fun _ => demoSource) sched 0 "3" =
      ["Status: Your task is being processed by worker 0"] := by
    simp only [worker, demo_processWork_size_three]
    rfl
  refine ⟨hw, ?_⟩
  rw [hw]
  decide

/-- Counterexample to claim C10 as stated: in the range of size 3 (half-bit bounds 2
and 3) an iteration does return an error, the reader's, when the read of the random
source fails. -/
theorem generateSafePrime_reader_failure :
    brokenSource.Sound ∧ 2 ≤ halfBits 3 ∧ halfBits 6 ≤ 6 ∧
    generateSafePrime 1 brokenSource 3 6 = some (GoResult.err RandError.reader) :=
  ⟨brokenSource_sound, by decide, by decide, by decide⟩

/-- Claim C10, amended: with a sound random source, a value `p` returned by
`generateSafePrime` has `(p-1)/2` divisible by no prime `<= 97`, so `(p-1)/2 >= 101`
and `p >= 203`; and when `2 <= (minBits+1)/2` and `(maxBits+1)/2 <= 6` no iteration
of the retry loop returns a prime, and none returns an error other than the error
of a failed read of the random source. -/
theorem generateSafePrime_sieved (fuel : Nat) (src : RandSource) (minBits maxBits : Int)
    (hs : src.Sound) :
    (∀ p, generateSafePrime fuel src minBits maxBits = some (GoResult.ok p) →
      (∀ q : Nat, q.Prime → q ≤ 97 → ¬ q ∣ (p - 1) / 2) ∧ 101 ≤ (p - 1) / 2 ∧ 203 ≤ p) ∧
    (2 ≤ halfBits minBits → halfBits maxBits ≤ 6 →
      (∀ p, generateSafePrime fuel src minBits maxBits ≠ some (GoResult.ok p)) ∧
      (∀ e, generateSafePrime fuel src minBits maxBits = some (GoResult.err e) →
        e = RandError.reader)) := by
  constructor
  · intro p h
    obtain ⟨q0, hp, _, _, h101, hnd, _, _⟩ := generateSafePrime_ok fuel src hs minBits maxBits p h
    have hq0 : (p - 1) / 2 = q0 := by omega
    rw [hq0]
    refine ⟨?_, h101, by omega⟩
    intro q hq hle hdvd
    have : isDivisibleByAnySmallPrime (q0 : Int) = true :=
      (isDivisible_iff _).2 ⟨(q : Int), smallPrimes_complete q hq hle,
        Int.natCast_dvd_natCast.2 hdvd⟩
    rw [this] at hnd
    exact Bool.noConfusion hnd
  · intro hmin hmax
    refine ⟨fun p => generateSafePrime_small_range fuel src hs minBits maxBits hmax p, ?_⟩
    intro e h
    exact safePrimeLoop_err src hs _ _ ⟨hmin, (halfBits_range minBits).2⟩
      (halfBits_range maxBits) fuel 0 e h

theorem generateSafePrime_sieved_witness :
    (101 ≤ (227 - 1) / 2 ∧ 203 ≤ 227) ∧
    generateSafePrime 5 demoSource 3 6 ≠ some (GoResult.ok 5) :=
  ⟨((generateSafePrime_sieved 1 demoSource 7 14 demoSource_sound).1 227 (by decide)).2,
    ((generateSafePrime_sieved 5 demoSource 3 6 demoSource_sound).2 (by decide) (by decide)).1 5⟩

end PrimeServer
